import Mathlib

/-!
Verification of the `sample` stream operator
(src/src/internal/operators/sample.ts).

The operator couples a source producer with a notifier producer.  The
per-subscription state machine (`SampleSubscriber`) latches the most
recent source value together with a freshness flag `hasValue`; a
notifier signal (next or complete) flushes the latched value downstream
when fresh.

Embedding layout:
* `SampleState` — the two mutable fields of `SampleSubscriber`
  (`value : T | undefined`, `hasValue : boolean`).  `value = none`
  models the field before its first assignment.
* `SampleSubscriber._next`, `SampleSubscriber.emitValue`,
  `SampleSubscriber.notifyNext`, `SampleSubscriber.notifyComplete` —
  direct translations of the methods in sample.ts.  `emitValue` is
  additionally decomposed into a list of atomic actions
  (`EmitAction`) so that the ordering of the state update relative to
  the `destination.next` call is visible in the model.
* `step` / `runFrom` — a run semantics over event lists.  The parts of
  the runtime that live outside sample.ts (the base `Subscriber`
  error/completion gating and the `innerSubscribe` routing) are
  modelled from the spec, as recorded in their doc comments.
-/

namespace RxSample

/-- The mutable fields of `SampleSubscriber` (sample.ts lines 70-71):
`private value: T | undefined` and `private hasValue: boolean = false`.
`none` models the initial `undefined` of an unassigned field. -/
structure SampleState (α : Type) where
  value : Option α
  hasValue : Bool
deriving Repr, DecidableEq

/-- Field state of a freshly constructed `SampleSubscriber`:
`value` unassigned, `hasValue = false`. -/
def SampleState.init (α : Type) : SampleState α := ⟨none, false⟩

/-- `SampleSubscriber._next` (sample.ts lines 73-76):
`this.value = value; this.hasValue = true;`. -/
def SampleSubscriber._next {α : Type} (st : SampleState α) (v : α) : SampleState α :=
  { st with value := some v, hasValue := true }

/-- An atomic action performed by `emitValue`: either a write to the
`hasValue` field or a call `destination.next(v)`. -/
inductive EmitAction (α : Type) where
  | setHasValue (b : Bool)
  | destNext (v : Option α)
deriving Repr, DecidableEq

/-- The sequence of atomic actions `SampleSubscriber.emitValue`
(sample.ts lines 86-91) performs from state `st`: when `hasValue` is
set it first clears `hasValue`, then calls `destination.next` with the
current `value`; otherwise it does nothing. -/
def emitActions {α : Type} (st : SampleState α) : List (EmitAction α) :=
  if st.hasValue then
    [EmitAction.setHasValue false, EmitAction.destNext st.value]
  else []

/-- Effect of one atomic action: the updated field state and the values
passed to `destination.next` by that action. -/
def applyEmitAction {α : Type} (st : SampleState α) :
    EmitAction α → SampleState α × List (Option α)
  | EmitAction.setHasValue b => ({ st with hasValue := b }, [])
  | EmitAction.destNext v => (st, [v])

/-- Run a list of atomic actions in order, collecting the
`destination.next` calls. -/
def runEmitActions {α : Type} (st : SampleState α) :
    List (EmitAction α) → SampleState α × List (Option α)
  | [] => (st, [])
  | a :: rest =>
    let p := applyEmitAction st a
    let q := runEmitActions p.1 rest
    (q.1, p.2 ++ q.2)

/-- `SampleSubscriber.emitValue` (sample.ts lines 86-91) as a function:
the resulting field state and the list of values forwarded to
`destination.next`, obtained by running its atomic actions. -/
def SampleSubscriber.emitValue {α : Type} (st : SampleState α) :
    SampleState α × List (Option α) :=
  runEmitActions st (emitActions st)

/-- `SampleSubscriber.notifyNext` (sample.ts lines 78-80):
`this.emitValue();` — the argumentless body discards the notifier's
value. -/
def SampleSubscriber.notifyNext {α : Type} (st : SampleState α) :
    SampleState α × List (Option α) :=
  SampleSubscriber.emitValue st

/-- `SampleSubscriber.notifyComplete` (sample.ts lines 82-84):
`this.emitValue();`. -/
def SampleSubscriber.notifyComplete {α : Type} (st : SampleState α) :
    SampleState α × List (Option α) :=
  SampleSubscriber.emitValue st


/-- An inbound signal delivered to the per-subscription machinery:
a signal from the source producer or from the notifier producer.
`α` is the source element type, `β` the notifier element type, `ε` the
error type. -/
inductive Event (α β ε : Type) where
  | sourceNext (v : α)
  | sourceError (e : ε)
  | sourceComplete
  | notifierNext (b : β)
  | notifierError (e : ε)
  | notifierComplete
deriving Repr, DecidableEq

/-- A signal observed by the downstream consumer. -/
inductive Signal (α ε : Type) where
  | next (v : Option α)
  | error (e : ε)
  | complete
deriving Repr, DecidableEq

/-- Per-subscription run state: the `SampleSubscriber` fields together
with two lifecycle flags of the surrounding runtime.

Modelled from the spec: the base `Subscriber` / `innerSubscribe`
machinery is not under src/, so its lifecycle is taken from the spec —
`terminated` records that the downstream consumer has received an
error or complete signal ("Terminal: ... immediately propagated, state
machine discarded"), after which no further signal is delivered;
`notifierStopped` records that the notifier leg has ended (its error or
completion), after which notifier signals no longer arrive. -/
structure RunState (α : Type) where
  core : SampleState α
  terminated : Bool
  notifierStopped : Bool
deriving Repr, DecidableEq

/-- Run state at output subscription time: freshly constructed
`SampleSubscriber`, both legs live. -/
def RunState.init (α : Type) : RunState α := ⟨SampleState.init α, false, false⟩

/-- One dispatch step: deliver one inbound event to the state machine,
producing the updated run state and the signals observed downstream.

The handlers for `sourceNext`, `notifierNext` and `notifierComplete`
are the sample.ts methods `_next`, `notifyNext`, `notifyComplete`.

Modelled from the spec for the rest: once `terminated`, the state
machine is discarded and nothing further is delivered; a source or
notifier error is "propagated verbatim and immediately to the
downstream consumer, terminating the combinator"; source completion is
"forwarded to the downstream consumer with standard propagation"; after
the notifier completes or errors the notifier leg ends
(`notifierStopped`) and later notifier events are not delivered. -/
def step {α β ε : Type} (s : RunState α) :
    Event α β ε → RunState α × List (Signal α ε)
  | Event.sourceNext v =>
    if s.terminated then (s, [])
    else ({ s with core := SampleSubscriber._next s.core v }, [])
  | Event.sourceError e =>
    if s.terminated then (s, [])
    else ({ s with terminated := true }, [Signal.error e])
  | Event.sourceComplete =>
    if s.terminated then (s, [])
    else ({ s with terminated := true }, [Signal.complete])
  | Event.notifierNext _ =>
    if s.terminated || s.notifierStopped then (s, [])
    else
      let p := SampleSubscriber.notifyNext s.core
      ({ s with core := p.1 }, p.2.map Signal.next)
  | Event.notifierError e =>
    if s.terminated || s.notifierStopped then (s, [])
    else ({ s with terminated := true, notifierStopped := true }, [Signal.error e])
  | Event.notifierComplete =>
    if s.terminated || s.notifierStopped then (s, [])
    else
      let p := SampleSubscriber.notifyComplete s.core
      ({ s with core := p.1, notifierStopped := true }, p.2.map Signal.next)

/-- Deliver a list of events in order, collecting the downstream
signals. -/
def runFrom {α β ε : Type} (s : RunState α) :
    List (Event α β ε) → RunState α × List (Signal α ε)
  | [] => (s, [])
  | e :: rest =>
    let p := step s e
    let q := runFrom p.1 rest
    (q.1, p.2 ++ q.2)

/-- Run state after delivering `evs` to a fresh subscription. -/
def stateAt {α β ε : Type} (evs : List (Event α β ε)) : RunState α :=
  (runFrom (RunState.init α) evs).1

/-- Downstream signals of a whole run from a fresh subscription. -/
def outputOf {α β ε : Type} (evs : List (Event α β ε)) : List (Signal α ε) :=
  (runFrom (RunState.init α) evs).2

/-- Signals produced by the event at position `k` of the run
(empty if `k` is out of range). -/
def outAt {α β ε : Type} (evs : List (Event α β ε)) (k : Nat) : List (Signal α ε) :=
  match evs[k]? with
  | some e => (step (stateAt (α := α) (β := β) (ε := ε) (evs.take k)) e).2
  | none => []

/-- A signal list contains a downstream `next`. -/
def emitsNext {α ε : Type} (out : List (Signal α ε)) : Prop :=
  ∃ w, Signal.next w ∈ out

/-- Boolean test for `Signal.next`. -/
def Signal.isNext {α ε : Type} : Signal α ε → Bool
  | Signal.next _ => true
  | Signal.error _ => false
  | Signal.complete => false

instance {α ε : Type} (out : List (Signal α ε)) : Decidable (emitsNext out) :=
  decidable_of_iff (out.any Signal.isNext = true) (by
    constructor
    · intro h
      rcases List.any_eq_true.mp h with ⟨s, hs, hval⟩
      cases s with
      | next w => exact ⟨w, hs⟩
      | error e => simp [Signal.isNext] at hval
      | complete => simp [Signal.isNext] at hval
    · rintro ⟨w, hw⟩
      exact List.any_eq_true.mpr ⟨_, hw, rfl⟩)

/-- The order in which `SampleOperator.call` (sample.ts lines 56-61)
establishes the two child subscriptions of the output subscription:
first `source.subscribe(sampleSubscriber)`, then
`subscription.add(innerSubscribe(this.notifier, new
SimpleInnerSubscriber(sampleSubscriber)))`. -/
inductive SubTarget where
  | source
  | notifier
deriving Repr, DecidableEq

/-- The subscriptions established by `SampleOperator.call`, in program
order. -/
def SampleOperator.call : List SubTarget := [SubTarget.source, SubTarget.notifier]

/-- Two event sequences agree except possibly in the payloads of
notifier `next` events (whose element types may even differ):
same source signals, same occurrence pattern of notifier signals. -/
inductive NotifierAgnostic {α β β' ε : Type} :
    List (Event α β ε) → List (Event α β' ε) → Prop where
  | nil : NotifierAgnostic [] []
  | sourceNext (v : α) {l l'} (h : NotifierAgnostic l l') :
      NotifierAgnostic (Event.sourceNext v :: l) (Event.sourceNext v :: l')
  | sourceError (e : ε) {l l'} (h : NotifierAgnostic l l') :
      NotifierAgnostic (Event.sourceError e :: l) (Event.sourceError e :: l')
  | sourceComplete {l l'} (h : NotifierAgnostic l l') :
      NotifierAgnostic (Event.sourceComplete :: l) (Event.sourceComplete :: l')
  | notifierNext (b : β) (b' : β') {l l'} (h : NotifierAgnostic l l') :
      NotifierAgnostic (Event.notifierNext b :: l) (Event.notifierNext b' :: l')
  | notifierError (e : ε) {l l'} (h : NotifierAgnostic l l') :
      NotifierAgnostic (Event.notifierError e :: l) (Event.notifierError e :: l')
  | notifierComplete {l l'} (h : NotifierAgnostic l l') :
      NotifierAgnostic (Event.notifierComplete :: l) (Event.notifierComplete :: l')

/-- Run states that differ at most in the content of a stale value slot
(`hasValue = false`): downstream-observable components agree. -/
def ObsEquiv {α : Type} (s₁ s₂ : RunState α) : Prop :=
  s₁.terminated = s₂.terminated ∧
  s₁.notifierStopped = s₂.notifierStopped ∧
  s₁.core.hasValue = s₂.core.hasValue ∧
  (s₁.core.hasValue = true → s₁.core.value = s₂.core.value)

/-- Demo run: three source values, then one notifier tick. -/
def runA : List (Event Nat Nat Nat) :=
  [Event.sourceNext 1, Event.sourceNext 2, Event.sourceNext 3, Event.notifierNext 0]

/-- Demo run: a single source value. -/
def runB : List (Event Nat Nat Nat) := [Event.sourceNext 7]

/-- Demo run: source values with notifier ticks of payload type `Nat`. -/
def runN1 : List (Event Nat Nat Nat) :=
  [Event.sourceNext 1, Event.notifierNext 10, Event.sourceNext 2, Event.notifierComplete]

/-- The same occurrence pattern as `runN1` with notifier payloads of a
different type. -/
def runN2 : List (Event Nat Bool Nat) :=
  [Event.sourceNext 1, Event.notifierNext true, Event.sourceNext 2, Event.notifierComplete]

/-! ### Basic lemmas about the step and run semantics -/

/-- Closed form of `emitValue`. -/
theorem emitValue_eq {α : Type} (st : SampleState α) :
    SampleSubscriber.emitValue st =
      if st.hasValue then ({ st with hasValue := false }, [st.value])
      else (st, []) := by
  unfold SampleSubscriber.emitValue emitActions
  by_cases h : st.hasValue
  · simp [h, runEmitActions, applyEmitAction]
  · simp [h, runEmitActions]

theorem step_of_terminated {α β ε : Type} {s : RunState α} (h : s.terminated = true)
    (e : Event α β ε) : step s e = (s, []) := by
  cases e <;> simp [step, h]

theorem step_terminated_mono {α β ε : Type} {s : RunState α} (h : s.terminated = true)
    (e : Event α β ε) : (step s e).1.terminated = true := by
  rw [step_of_terminated h e]; exact h

theorem step_notifierStopped_mono {α β ε : Type} {s : RunState α}
    (h : s.notifierStopped = true) (e : Event α β ε) :
    (step s e).1.notifierStopped = true := by
  cases e with
  | sourceNext v =>
    by_cases ht : s.terminated <;> simp [step, ht, h]
  | sourceError e =>
    by_cases ht : s.terminated <;> simp [step, ht, h]
  | sourceComplete =>
    by_cases ht : s.terminated <;> simp [step, ht, h]
  | notifierNext b => simp [step, h]
  | notifierError e => simp [step, h]
  | notifierComplete => simp [step, h]

theorem runFrom_of_terminated {α β ε : Type} {s : RunState α} (h : s.terminated = true)
    (evs : List (Event α β ε)) : runFrom s evs = (s, []) := by
  induction evs with
  | nil => rfl
  | cons e rest ih =>
    simp [runFrom, step_of_terminated h e, ih]

theorem runFrom_notifierStopped_mono {α β ε : Type} {s : RunState α}
    (h : s.notifierStopped = true) (evs : List (Event α β ε)) :
    (runFrom s evs).1.notifierStopped = true := by
  induction evs generalizing s with
  | nil => exact h
  | cons e rest ih =>
    simp only [runFrom]
    exact ih (step_notifierStopped_mono h e)

theorem runFrom_append {α β ε : Type} (s : RunState α)
    (l₁ l₂ : List (Event α β ε)) :
    runFrom s (l₁ ++ l₂) =
      ((runFrom (runFrom s l₁).1 l₂).1,
        (runFrom s l₁).2 ++ (runFrom (runFrom s l₁).1 l₂).2) := by
  induction l₁ generalizing s with
  | nil => simp [runFrom]
  | cons e rest ih =>
    simp [runFrom, ih]

theorem stateAt_append {α β ε : Type} (l₁ l₂ : List (Event α β ε)) :
    stateAt (α := α) (l₁ ++ l₂) = (runFrom (stateAt (α := α) l₁) l₂).1 := by
  simp [stateAt, runFrom_append]

theorem stateAt_snoc {α β ε : Type} (evs : List (Event α β ε)) (e : Event α β ε) :
    stateAt (α := α) (evs ++ [e]) = (step (stateAt (α := α) evs) e).1 := by
  rw [stateAt_append]
  simp [runFrom]

theorem stateAt_take_not_terminated {α β ε : Type} {evs : List (Event α β ε)}
    (h : (stateAt (α := α) evs).terminated = false) (k : Nat) :
    (stateAt (α := α) (evs.take k)).terminated = false := by
  by_contra hk
  rw [Bool.not_eq_false] at hk
  have hsplit : stateAt (α := α) (β := β) (ε := ε) evs =
      (runFrom (stateAt (α := α) (evs.take k)) (evs.drop k)).1 := by
    conv_lhs => rw [← List.take_append_drop k evs]
    exact stateAt_append _ _
  rw [hsplit, runFrom_of_terminated hk] at h
  simp [hk] at h

/-- Closed form of the notifier-tick step. -/
theorem step_notifierNext_eq {α β ε : Type} (s : RunState α) (b : β) :
    step (ε := ε) s (Event.notifierNext b) =
      if s.terminated || s.notifierStopped then (s, [])
      else if s.core.hasValue then
        ({ s with core := { s.core with hasValue := false } },
          [Signal.next s.core.value])
      else (s, []) := by
  by_cases hg : s.terminated || s.notifierStopped
  · simp [step, hg]
  · by_cases hv : s.core.hasValue <;>
      simp [step, hg, SampleSubscriber.notifyNext, emitValue_eq, hv]

theorem emitsNext_nil {α ε : Type} : ¬ emitsNext ([] : List (Signal α ε)) := by
  rintro ⟨w, hw⟩
  exact List.not_mem_nil _ hw

theorem outAt_eq_of_getElem {α β ε : Type} {evs : List (Event α β ε)} {k : Nat}
    {e : Event α β ε} (h : evs[k]? = some e) :
    outAt evs k = (step (stateAt (evs.take k)) e).2 := by
  unfold outAt
  rw [h]

theorem outAt_eq_nil_of_none {α β ε : Type} {evs : List (Event α β ε)} {k : Nat}
    (h : evs[k]? = none) : outAt (α := α) evs k = [] := by
  unfold outAt
  rw [h]

theorem outAt_append_left {α β ε : Type} (evs rest : List (Event α β ε)) (k : Nat)
    (hk : k < evs.length) : outAt (evs ++ rest) k = outAt evs k := by
  unfold outAt
  rw [List.getElem?_append_left hk, List.take_append_of_le_length (Nat.le_of_lt hk)]

theorem outAt_snoc_length {α β ε : Type} (evs : List (Event α β ε)) (e : Event α β ε) :
    outAt (evs ++ [e]) evs.length = (step (stateAt evs) e).2 := by
  unfold outAt
  rw [List.getElem?_concat_length, List.take_append_of_le_length (le_refl _),
    List.take_length]

theorem outAt_of_le {α β ε : Type} (evs : List (Event α β ε)) (k : Nat)
    (hk : evs.length ≤ k) : outAt (α := α) evs k = [] :=
  outAt_eq_nil_of_none (List.getElem?_eq_none_iff.mpr hk)

/-- Closed form of the notifier-completion step. -/
theorem step_notifierComplete_eq {α β ε : Type} (s : RunState α) :
    step (β := β) (ε := ε) s Event.notifierComplete =
      if s.terminated || s.notifierStopped then (s, [])
      else if s.core.hasValue then
        ({ s with
            core := { s.core with hasValue := false }
            notifierStopped := true },
          [Signal.next s.core.value])
      else ({ s with notifierStopped := true }, []) := by
  by_cases hg : s.terminated || s.notifierStopped
  · simp [step, hg]
  · by_cases hv : s.core.hasValue <;>
      simp [step, hg, SampleSubscriber.notifyComplete, emitValue_eq, hv]

/-! ### The latch invariant

`latch_char` characterizes a set `hasValue` flag by the run history: it
was set by the most recent source `next`, and the latched value has not
been forwarded downstream since. -/

/-- Extending a run by an event that is not a source `next` and that
leaves the state unchanged and emits nothing preserves the latch
characterization. -/
theorem latch_extend {α β ε : Type} {evs : List (Event α β ε)} {e : Event α β ε}
    (hnotsrc : ∀ u, e ≠ Event.sourceNext u)
    (hstate : step (stateAt evs) e = (stateAt evs, []))
    (IH : ∃ j v, evs[j]? = some (Event.sourceNext v) ∧
      (stateAt evs).core.value = some v ∧
      (∀ k, j < k → ∀ u, evs[k]? ≠ some (Event.sourceNext u)) ∧
      (∀ k, j < k → ¬ emitsNext (outAt evs k))) :
    ∃ j v, (evs ++ [e])[j]? = some (Event.sourceNext v) ∧
      (stateAt (evs ++ [e])).core.value = some v ∧
      (∀ k, j < k → ∀ u, (evs ++ [e])[k]? ≠ some (Event.sourceNext u)) ∧
      (∀ k, j < k → ¬ emitsNext (outAt (evs ++ [e]) k)) := by
  obtain ⟨j, v, hj, hv, hlast, hout⟩ := IH
  have hjlt : j < evs.length := (List.getElem?_eq_some.mp hj).1
  refine ⟨j, v, ?_, ?_, ?_, ?_⟩
  · rw [List.getElem?_append_left hjlt]
    exact hj
  · rw [stateAt_snoc, hstate]
    exact hv
  · intro k hk u
    rcases lt_trichotomy k evs.length with hkl | hkl | hkl
    · rw [List.getElem?_append_left hkl]
      exact hlast k hk u
    · subst hkl
      rw [List.getElem?_concat_length]
      intro hcon
      exact hnotsrc u (Option.some.inj hcon)
    · rw [List.getElem?_eq_none_iff.mpr (by simp; omega)]
      simp
  · intro k hk
    rcases lt_trichotomy k evs.length with hkl | hkl | hkl
    · rw [outAt_append_left evs [e] k hkl]
      exact hout k hk
    · subst hkl
      rw [outAt_snoc_length, hstate]
      exact emitsNext_nil
    · rw [outAt_of_le _ _ (by simp; omega)]
      exact emitsNext_nil

/-- History characterization of a set latch: in a non-terminated run
with `hasValue = true`, some position `j` carries a source `next` whose
value is the latched one, no later source `next` occurs, and no
downstream `next` has been produced after `j`. -/
theorem latch_char {α β ε : Type} (evs : List (Event α β ε))
    (hterm : (stateAt evs).terminated = false)
    (hval : (stateAt evs).core.hasValue = true) :
    ∃ j v, evs[j]? = some (Event.sourceNext v) ∧
      (stateAt evs).core.value = some v ∧
      (∀ k, j < k → ∀ u, evs[k]? ≠ some (Event.sourceNext u)) ∧
      (∀ k, j < k → ¬ emitsNext (outAt evs k)) := by
  induction evs using List.reverseRecOn with
  | nil =>
    simp [stateAt, runFrom, RunState.init, SampleState.init] at hval
  | append_singleton evs e ih =>
    have hstep : stateAt (evs ++ [e]) = (step (stateAt evs) e).1 := stateAt_snoc evs e
    have hterm' : (stateAt evs).terminated = false := by
      by_contra hc
      rw [Bool.not_eq_false] at hc
      rw [hstep, step_terminated_mono hc e] at hterm
      exact Bool.noConfusion hterm
    cases e with
    | sourceNext v =>
      have hs : step (β := β) (ε := ε) (stateAt evs) (Event.sourceNext v) =
          ({ stateAt evs with core := SampleSubscriber._next (stateAt evs).core v },
            []) := by
        simp [step, hterm']
      refine ⟨evs.length, v, List.getElem?_concat_length evs _, ?_, ?_, ?_⟩
      · rw [hstep, hs]
        simp [SampleSubscriber._next]
      · intro k hk u
        rw [List.getElem?_eq_none_iff.mpr (by simp; omega)]
        simp
      · intro k hk
        rw [outAt_of_le _ _ (by simp; omega)]
        exact emitsNext_nil
    | sourceError err =>
      rw [hstep] at hterm
      simp [step, hterm'] at hterm
    | sourceComplete =>
      rw [hstep] at hterm
      simp [step, hterm'] at hterm
    | notifierNext b =>
      rcases Bool.eq_false_or_eq_true (stateAt evs).notifierStopped with hns | hns
      · have hs : step (ε := ε) (stateAt evs) (Event.notifierNext b) =
            (stateAt evs, []) := by
          simp [step, hns]
        have hval' : (stateAt evs).core.hasValue = true := by
          rw [hstep, hs] at hval
          exact hval
        exact latch_extend (by intro u hu; exact Event.noConfusion hu) hs
          (ih hterm' hval')
      · rcases Bool.eq_false_or_eq_true (stateAt evs).core.hasValue with hcv | hcv
        · rw [hstep, step_notifierNext_eq] at hval
          simp [hterm', hns, hcv] at hval
        · rw [hstep, step_notifierNext_eq] at hval
          simp [hterm', hns, hcv] at hval
    | notifierError err =>
      rcases Bool.eq_false_or_eq_true (stateAt evs).notifierStopped with hns | hns
      · have hs : step (α := α) (β := β) (stateAt evs) (Event.notifierError err) =
            (stateAt evs, []) := by
          simp [step, hns]
        have hval' : (stateAt evs).core.hasValue = true := by
          rw [hstep, hs] at hval
          exact hval
        exact latch_extend (by intro u hu; exact Event.noConfusion hu) hs
          (ih hterm' hval')
      · rw [hstep] at hterm
        simp [step, hterm', hns] at hterm
    | notifierComplete =>
      rcases Bool.eq_false_or_eq_true (stateAt evs).notifierStopped with hns | hns
      · have hs : step (β := β) (ε := ε) (stateAt evs) Event.notifierComplete =
            (stateAt evs, []) := by
          simp [step, hns]
        have hval' : (stateAt evs).core.hasValue = true := by
          rw [hstep, hs] at hval
          exact hval
        exact latch_extend (by intro u hu; exact Event.noConfusion hu) hs
          (ih hterm' hval')
      · rcases Bool.eq_false_or_eq_true (stateAt evs).core.hasValue with hcv | hcv
        · rw [hstep, step_notifierComplete_eq] at hval
          simp [hterm', hns, hcv] at hval
        · rw [hstep, step_notifierComplete_eq] at hval
          simp [hterm', hns, hcv] at hval

/-- Converse of the latch characterization: a source value received at
position `j` of a non-terminated run with no downstream `next` produced
after `j` forces `hasValue = true`. -/
theorem unforwarded_hasValue {α β ε : Type} (evs : List (Event α β ε))
    (hterm : (stateAt evs).terminated = false)
    (j : Nat) (v : α) (hj : evs[j]? = some (Event.sourceNext v))
    (hout : ∀ k, j < k → ¬ emitsNext (outAt evs k)) :
    (stateAt evs).core.hasValue = true := by
  induction evs using List.reverseRecOn with
  | nil => simp at hj
  | append_singleton evs e ih =>
    have hstep : stateAt (evs ++ [e]) = (step (stateAt evs) e).1 := stateAt_snoc evs e
    have hterm' : (stateAt evs).terminated = false := by
      by_contra hc
      rw [Bool.not_eq_false] at hc
      rw [hstep, step_terminated_mono hc e] at hterm
      exact Bool.noConfusion hterm
    have hjlt : j < evs.length + 1 := by
      simpa using (List.getElem?_eq_some.mp hj).1
    rcases Nat.lt_succ_iff_lt_or_eq.mp hjlt with hjl | hje
    · have hj' : evs[j]? = some (Event.sourceNext v) := by
        rw [List.getElem?_append_left hjl] at hj
        exact hj
      have hout' : ∀ k, j < k → ¬ emitsNext (outAt evs k) := by
        intro k hk
        rcases lt_or_ge k evs.length with hkl | hkl
        · rw [← outAt_append_left evs [e] k hkl]
          exact hout k hk
        · rw [outAt_of_le _ _ hkl]
          exact emitsNext_nil
      have hvalprev : (stateAt evs).core.hasValue = true := ih hterm' hj' hout'
      have houtlen : ¬ emitsNext (step (stateAt evs) e).2 := by
        have h0 := hout evs.length (by omega)
        rw [outAt_snoc_length] at h0
        exact h0
      cases e with
      | sourceNext u =>
        rw [hstep]
        simp [step, hterm', SampleSubscriber._next]
      | sourceError err =>
        rw [hstep] at hterm
        simp [step, hterm'] at hterm
      | sourceComplete =>
        rw [hstep] at hterm
        simp [step, hterm'] at hterm
      | notifierNext b =>
        rcases Bool.eq_false_or_eq_true (stateAt evs).notifierStopped with hns | hns
        · rw [hstep]
          simp [step, hns]
          exact hvalprev
        · rw [step_notifierNext_eq] at houtlen
          simp [hterm', hns, hvalprev] at houtlen
          exact absurd ⟨_, List.mem_singleton_self _⟩ houtlen
      | notifierError err =>
        rcases Bool.eq_false_or_eq_true (stateAt evs).notifierStopped with hns | hns
        · rw [hstep]
          simp [step, hns]
          exact hvalprev
        · rw [hstep] at hterm
          simp [step, hterm', hns] at hterm
      | notifierComplete =>
        rcases Bool.eq_false_or_eq_true (stateAt evs).notifierStopped with hns | hns
        · rw [hstep]
          simp [step, hns]
          exact hvalprev
        · rw [step_notifierComplete_eq] at houtlen
          simp [hterm', hns, hvalprev] at houtlen
          exact absurd ⟨_, List.mem_singleton_self _⟩ houtlen
    · subst hje
      rw [List.getElem?_concat_length] at hj
      have he : e = Event.sourceNext v := Option.some.inj hj
      subst he
      rw [hstep]
      simp [step, hterm', SampleSubscriber._next]

/-! ### Output shape lemmas -/

/-- Every single event produces at most one downstream signal. -/
theorem step_out_length {α β ε : Type} (s : RunState α) (e : Event α β ε) :
    (step s e).2.length ≤ 1 := by
  cases e with
  | sourceNext v =>
    rcases Bool.eq_false_or_eq_true s.terminated with ht | ht <;> simp [step, ht]
  | sourceError err =>
    rcases Bool.eq_false_or_eq_true s.terminated with ht | ht <;> simp [step, ht]
  | sourceComplete =>
    rcases Bool.eq_false_or_eq_true s.terminated with ht | ht <;> simp [step, ht]
  | notifierNext b =>
    rw [step_notifierNext_eq]
    rcases Bool.eq_false_or_eq_true (s.terminated || s.notifierStopped) with hg | hg
    · simp [hg]
    · rcases Bool.eq_false_or_eq_true s.core.hasValue with hv | hv <;> simp [hg, hv]
  | notifierError err =>
    rcases Bool.eq_false_or_eq_true (s.terminated || s.notifierStopped) with hg | hg <;>
      simp [step, hg]
  | notifierComplete =>
    rw [step_notifierComplete_eq]
    rcases Bool.eq_false_or_eq_true (s.terminated || s.notifierStopped) with hg | hg
    · simp [hg]
    · rcases Bool.eq_false_or_eq_true s.core.hasValue with hv | hv <;> simp [hg, hv]

/-- A source `next` never produces downstream output by itself. -/
theorem step_sourceNext_out {α β ε : Type} (s : RunState α) (v : α) :
    (step (β := β) (ε := ε) s (Event.sourceNext v)).2 = [] := by
  rcases Bool.eq_false_or_eq_true s.terminated with ht | ht <;> simp [step, ht]

/-- A downstream `next` signal can only be produced by a notifier event
dispatched in a live run whose latch is fresh, and it carries exactly
the latched value. -/
theorem next_requires_latch {α β ε : Type} {s : RunState α} {e : Event α β ε}
    {w : Option α} (h : Signal.next w ∈ (step s e).2) :
    s.terminated = false ∧ s.notifierStopped = false ∧
      s.core.hasValue = true ∧ w = s.core.value := by
  cases e with
  | sourceNext v =>
    rw [step_sourceNext_out] at h
    exact absurd h (List.not_mem_nil _)
  | sourceError err =>
    rcases Bool.eq_false_or_eq_true s.terminated with ht | ht <;> simp [step, ht] at h
  | sourceComplete =>
    rcases Bool.eq_false_or_eq_true s.terminated with ht | ht <;> simp [step, ht] at h
  | notifierNext b =>
    rw [step_notifierNext_eq] at h
    rcases Bool.eq_false_or_eq_true (s.terminated || s.notifierStopped) with hg | hg
    · simp [hg] at h
    · rcases Bool.eq_false_or_eq_true s.core.hasValue with hv | hv
      · simp only [hg, Bool.false_eq_true, if_false, hv, if_true] at h
        rcases Bool.or_eq_false_iff.mp hg with ⟨ht, hn⟩
        have hw : Signal.next w = Signal.next s.core.value := List.mem_singleton.mp h
        exact ⟨ht, hn, hv, Signal.next.inj hw⟩
      · simp [hg, hv] at h
  | notifierError err =>
    rcases Bool.eq_false_or_eq_true (s.terminated || s.notifierStopped) with hg | hg <;>
      simp [step, hg] at h
  | notifierComplete =>
    rw [step_notifierComplete_eq] at h
    rcases Bool.eq_false_or_eq_true (s.terminated || s.notifierStopped) with hg | hg
    · simp [hg] at h
    · rcases Bool.eq_false_or_eq_true s.core.hasValue with hv | hv
      · simp only [hg, Bool.false_eq_true, if_false, hv, if_true] at h
        rcases Bool.or_eq_false_iff.mp hg with ⟨ht, hn⟩
        have hw : Signal.next w = Signal.next s.core.value := List.mem_singleton.mp h
        exact ⟨ht, hn, hv, Signal.next.inj hw⟩
      · simp [hg, hv] at h

/-! ### Stopping lemmas for the notifier leg -/

/-- After a `notifierComplete` event is dispatched, the run is
terminated or the notifier leg is stopped. -/
theorem step_notifierComplete_stops {α β ε : Type} (s : RunState α) :
    ((step (β := β) (ε := ε) s Event.notifierComplete).1.terminated ||
      (step (β := β) (ε := ε) s Event.notifierComplete).1.notifierStopped) = true := by
  rw [step_notifierComplete_eq]
  rcases Bool.eq_false_or_eq_true (s.terminated || s.notifierStopped) with hg | hg
  · simp [hg]
  · rcases Bool.eq_false_or_eq_true s.core.hasValue with hv | hv <;> simp [hg, hv]

theorem step_stopped_mono {α β ε : Type} {s : RunState α}
    (h : (s.terminated || s.notifierStopped) = true) (e : Event α β ε) :
    ((step s e).1.terminated || (step s e).1.notifierStopped) = true := by
  rcases Bool.or_eq_true_iff.mp h with ht | hn
  · rw [step_of_terminated ht e]
    exact h
  · rw [step_notifierStopped_mono hn e]
    simp

theorem runFrom_stopped_mono {α β ε : Type} {s : RunState α}
    (h : (s.terminated || s.notifierStopped) = true) (evs : List (Event α β ε)) :
    ((runFrom s evs).1.terminated || (runFrom s evs).1.notifierStopped) = true := by
  induction evs generalizing s with
  | nil => exact h
  | cons e rest ih =>
    simp only [runFrom]
    exact ih (step_stopped_mono h e)

/-- Once a `notifierComplete` event has been dispatched at position `i`,
every strictly later prefix state is terminated or notifier-stopped. -/
theorem stopped_after_notifierComplete {α β ε : Type} {evs : List (Event α β ε)}
    {i j : Nat} (hij : i < j) (hi : evs[i]? = some Event.notifierComplete) :
    ((stateAt (evs.take j)).terminated ||
      (stateAt (evs.take j)).notifierStopped) = true := by
  have htake : evs.take j = evs.take (i + 1) ++ (evs.drop (i + 1)).take (j - (i + 1)) := by
    have h0 := List.take_add evs (i + 1) (j - (i + 1))
    rw [show i + 1 + (j - (i + 1)) = j by omega] at h0
    exact h0
  have hsucc : evs.take (i + 1) = evs.take i ++ [Event.notifierComplete] := by
    rw [List.take_succ, hi]
    rfl
  have h1 : ((stateAt (evs.take (i + 1))).terminated ||
      (stateAt (evs.take (i + 1))).notifierStopped) = true := by
    rw [hsucc, stateAt_snoc]
    exact step_notifierComplete_stops _
  rw [htake, stateAt_append]
  exact runFrom_stopped_mono h1 _

/-! ### Claim theorems -/

/-- C1: in every run, a notifier tick produces at most one downstream
`next` signal, and when it produces one, the value carried is the most
recent source value received strictly since the previous emission (or
since subscription start): it was received at some position `j` before
the tick and no further source value arrived between `j` and the
tick. -/
theorem sample_tick_at_most_one_latest {α β ε : Type}
    (evs : List (Event α β ε)) (i : Nat) (b : β)
    (hi : evs[i]? = some (Event.notifierNext b)) :
    (outAt evs i).length ≤ 1 ∧
      ∀ w, Signal.next w ∈ outAt evs i →
        ∃ j v, j < i ∧ evs[j]? = some (Event.sourceNext v) ∧ w = some v ∧
          ∀ k, j < k → k < i → ∀ u, evs[k]? ≠ some (Event.sourceNext u) := by
  have hout : outAt evs i = (step (stateAt (evs.take i)) (Event.notifierNext b)).2 :=
    outAt_eq_of_getElem hi
  constructor
  · rw [hout]
    exact step_out_length _ _
  · intro w hw
    rw [hout] at hw
    obtain ⟨hterm, hns, hval, hwv⟩ := next_requires_latch hw
    obtain ⟨j, v, hj, hvv, hlast, -⟩ := latch_char (evs.take i) hterm hval
    have hjlen : j < (evs.take i).length := (List.getElem?_eq_some.mp hj).1
    have hji : j < i := lt_of_lt_of_le hjlen (by
      rw [List.length_take]
      exact min_le_left _ _)
    refine ⟨j, v, hji, ?_, ?_, ?_⟩
    · rw [← List.getElem?_take_of_lt hji]
      exact hj
    · rw [hwv, hvv]
    · intro k hjk hki u
      rw [← List.getElem?_take_of_lt hki]
      exact hlast k hjk u

/-- Witness for C1 on the concrete run `v1, v2, v3, tick`. -/
theorem sample_tick_at_most_one_latest_witness :
    (runA[3]? = some (Event.notifierNext 0)) ∧
    ((outAt runA 3).length ≤ 1 ∧
      ∀ w, Signal.next w ∈ outAt runA 3 →
        ∃ j v, j < 3 ∧ runA[j]? = some (Event.sourceNext v) ∧ w = some v ∧
          ∀ k, j < k → k < 3 → ∀ u, runA[k]? ≠ some (Event.sourceNext u)) :=
  ⟨rfl, sample_tick_at_most_one_latest runA 3 0 rfl⟩

/-- C2: in any live (non-terminated) reachable state, `hasValue = true`
iff a source value has been received at some position and no downstream
`next` has been forwarded since; and whenever `hasValue` is set, the
latched `value` equals the most recently received source value (no
later source `next` occurs in the history).  The statement quantifies
over every event history, so it holds before and after each signal
handler: every handler preserves the invariant. -/
theorem sample_hasValue_invariant {α β ε : Type} (evs : List (Event α β ε))
    (hterm : (stateAt evs).terminated = false) :
    ((stateAt evs).core.hasValue = true ↔
      ∃ j v, evs[j]? = some (Event.sourceNext v) ∧
        ∀ k, j < k → ¬ emitsNext (outAt evs k)) ∧
    ((stateAt evs).core.hasValue = true →
      ∃ (j : Nat) (v : α), evs[j]? = some (Event.sourceNext v) ∧
        (stateAt evs).core.value = some v ∧
        ∀ (k : Nat), j < k → ∀ (u : α), evs[k]? ≠ some (Event.sourceNext u)) := by
  constructor
  · constructor
    · intro hval
      obtain ⟨j, v, hj, -, -, hout⟩ := latch_char evs hterm hval
      exact ⟨j, v, hj, hout⟩
    · rintro ⟨j, v, hj, hout⟩
      exact unforwarded_hasValue evs hterm j v hj hout
  · intro hval
    obtain ⟨j, v, hj, hvv, hlast, -⟩ := latch_char evs hterm hval
    exact ⟨j, v, hj, hvv, fun k hk u => hlast k hk u⟩

/-- Witness for C2 on the concrete run with a single source value. -/
theorem sample_hasValue_invariant_witness :
    ((stateAt runB).terminated = false) ∧
    (((stateAt runB).core.hasValue = true ↔
      ∃ j v, runB[j]? = some (Event.sourceNext v) ∧
        ∀ k, j < k → ¬ emitsNext (outAt runB k)) ∧
    ((stateAt runB).core.hasValue = true →
      ∃ (j : Nat) (v : Nat), runB[j]? = some (Event.sourceNext v) ∧
        (stateAt runB).core.value = some v ∧
        ∀ (k : Nat), j < k → ∀ (u : Nat), runB[k]? ≠ some (Event.sourceNext u))) :=
  ⟨rfl, sample_hasValue_invariant runB rfl⟩

/-- C3: a notifier tick with no fresh latched value produces no
downstream output: (i) a tick dispatched in a state with
`hasValue = false` emits nothing; (ii) a tick with no source `next`
anywhere before it emits nothing; (iii) the second of two consecutive
notifier ticks (no intervening event) always emits nothing, so the
same latched value is never emitted twice. -/
theorem sample_tick_without_fresh_value_silent {α β ε : Type} :
    (∀ (s : RunState α) (b : β), s.core.hasValue = false →
      (step (ε := ε) s (Event.notifierNext b)).2 = []) ∧
    (∀ (evs : List (Event α β ε)) (i : Nat) (b : β),
      evs[i]? = some (Event.notifierNext b) →
      (∀ (k : Nat) (v : α), k < i → evs[k]? ≠ some (Event.sourceNext v)) →
      outAt evs i = []) ∧
    (∀ (s : RunState α) (b₁ b₂ : β),
      (step (ε := ε) ((step (ε := ε) s (Event.notifierNext b₁)).1)
        (Event.notifierNext b₂)).2 = []) := by
  refine ⟨?_, ?_, ?_⟩
  · intro s b hv
    rw [step_notifierNext_eq]
    rcases Bool.eq_false_or_eq_true (s.terminated || s.notifierStopped) with hg | hg <;>
      simp [hg, hv]
  · intro evs i b hi hnosrc
    rw [outAt_eq_of_getElem hi, step_notifierNext_eq]
    set s := stateAt (evs.take i) with hs
    rcases Bool.eq_false_or_eq_true (s.terminated || s.notifierStopped) with hg | hg
    · simp [hg]
    · rcases Bool.eq_false_or_eq_true s.core.hasValue with hv | hv
      · exfalso
        have hterm : s.terminated = false := (Bool.or_eq_false_iff.mp hg).1
        obtain ⟨j, v, hj, -, -, -⟩ := latch_char (evs.take i) hterm hv
        have hjlen : j < (evs.take i).length := (List.getElem?_eq_some.mp hj).1
        have hji : j < i := lt_of_lt_of_le hjlen (by
          rw [List.length_take]
          exact min_le_left _ _)
        rw [List.getElem?_take_of_lt hji] at hj
        exact hnosrc j v hji hj
      · simp [hg, hv]
  · intro s b₁ b₂
    rcases Bool.eq_false_or_eq_true (s.terminated || s.notifierStopped) with hg | hg
    · simp [step_notifierNext_eq, hg]
    · rcases Bool.eq_false_or_eq_true s.core.hasValue with hv | hv <;>
        simp [step_notifierNext_eq, hg, hv]

/-- Witness for C3: a fresh state has no latched value and a tick emits
nothing; a tick before any source value emits nothing; of two
consecutive ticks on a state holding a fresh value, the second emits
nothing. -/
theorem sample_tick_without_fresh_value_silent_witness :
    ((RunState.init Nat).core.hasValue = false ∧
      (step (RunState.init Nat) (Event.notifierNext 5 : Event Nat Nat Nat)).2 = []) ∧
    (([Event.notifierNext 0] : List (Event Nat Nat Nat))[0]? =
        some (Event.notifierNext 0) ∧
      outAt ([Event.notifierNext 0] : List (Event Nat Nat Nat)) 0 = []) ∧
    ((step ((step (⟨⟨some 9, true⟩, false, false⟩ : RunState Nat)
        (Event.notifierNext 1 : Event Nat Nat Nat)).1)
      (Event.notifierNext 2 : Event Nat Nat Nat)).2 = []) :=
  ⟨⟨rfl, sample_tick_without_fresh_value_silent.1 (RunState.init Nat) 5 rfl⟩,
    ⟨rfl, sample_tick_without_fresh_value_silent.2.1 _ 0 0 rfl
      (fun k _ hk => absurd hk (Nat.not_lt_zero k))⟩,
    sample_tick_without_fresh_value_silent.2.2 ⟨⟨some 9, true⟩, false, false⟩ 1 2⟩

/-- C4: the notifier-completion handler is behaviourally identical to
the notifier-tick handler: `notifyNext` and `notifyComplete` both
invoke the same routine `emitValue`; a completion event produces
exactly the downstream signals a tick would from the same state; and a
completion-triggered emission occurs at most once per subscription —
any notifier-completion event following an earlier one produces no
output. -/
theorem sample_notifier_complete_like_tick {α β ε : Type} :
    (∀ st : SampleState α,
      SampleSubscriber.notifyNext st = SampleSubscriber.emitValue st ∧
      SampleSubscriber.notifyComplete st = SampleSubscriber.emitValue st) ∧
    (∀ (s : RunState α) (b : β),
      (step (β := β) (ε := ε) s Event.notifierComplete).2 =
        (step (ε := ε) s (Event.notifierNext b)).2) ∧
    (∀ (evs : List (Event α β ε)) (i j : Nat), i < j →
      evs[i]? = some Event.notifierComplete →
      evs[j]? = some Event.notifierComplete →
      outAt evs j = []) := by
  refine ⟨fun st => ⟨rfl, rfl⟩, ?_, ?_⟩
  · intro s b
    rw [step_notifierNext_eq, step_notifierComplete_eq]
    rcases Bool.eq_false_or_eq_true (s.terminated || s.notifierStopped) with hg | hg
    · simp [hg]
    · rcases Bool.eq_false_or_eq_true s.core.hasValue with hv | hv <;> simp [hg, hv]
  · intro evs i j hij hi hj
    have hstop := stopped_after_notifierComplete hij hi
    rw [outAt_eq_of_getElem hj, step_notifierComplete_eq, if_pos hstop]

/-- Witness for C4 on a run with two notifier completions. -/
theorem sample_notifier_complete_like_tick_witness :
    ((step (⟨⟨some 4, true⟩, false, false⟩ : RunState Nat)
        (Event.notifierComplete : Event Nat Nat Nat)).2 =
      (step (⟨⟨some 4, true⟩, false, false⟩ : RunState Nat)
        (Event.notifierNext 0 : Event Nat Nat Nat)).2) ∧
    (0 < 1) ∧
    (([Event.notifierComplete, Event.notifierComplete] :
        List (Event Nat Nat Nat))[0]? = some Event.notifierComplete) ∧
    (([Event.notifierComplete, Event.notifierComplete] :
        List (Event Nat Nat Nat))[1]? = some Event.notifierComplete) ∧
    (outAt ([Event.notifierComplete, Event.notifierComplete] :
        List (Event Nat Nat Nat)) 1 = []) :=
  ⟨sample_notifier_complete_like_tick.2.1 ⟨⟨some 4, true⟩, false, false⟩ 0,
    Nat.zero_lt_one, rfl, rfl,
    sample_notifier_complete_like_tick.2.2 _ 0 1 Nat.zero_lt_one rfl rfl⟩

/-- C5: `SampleOperator.call` subscribes to the source first, then the
notifier; a notifier tick delivered synchronously at subscription time
observes the freshly initialized state machine (`hasValue = false`)
and emits nothing; and in no run does a downstream `next` precede the
first source `next`. -/
theorem sample_source_subscribed_first {α β ε : Type} :
    SampleOperator.call = [SubTarget.source, SubTarget.notifier] ∧
    (RunState.init α).core.hasValue = false ∧
    (∀ b : β, (step (ε := ε) (RunState.init α) (Event.notifierNext b)).2 = []) ∧
    (∀ (evs : List (Event α β ε)) (i : Nat) (w : Option α),
      Signal.next w ∈ outAt evs i →
      ∃ (j : Nat) (v : α), j < i ∧ evs[j]? = some (Event.sourceNext v)) := by
  refine ⟨rfl, rfl, ?_, ?_⟩
  · intro b
    rw [step_notifierNext_eq]
    simp [RunState.init, SampleState.init]
  · intro evs i w hw
    cases hi : evs[i]? with
    | none =>
      rw [outAt_eq_nil_of_none hi] at hw
      exact absurd hw (List.not_mem_nil _)
    | some e =>
      rw [outAt_eq_of_getElem hi] at hw
      obtain ⟨hterm, hns, hval, hwv⟩ := next_requires_latch hw
      obtain ⟨j, v, hj, -, -, -⟩ := latch_char (evs.take i) hterm hval
      have hjlen : j < (evs.take i).length := (List.getElem?_eq_some.mp hj).1
      have hji : j < i := lt_of_lt_of_le hjlen (by
        rw [List.length_take]
        exact min_le_left _ _)
      refine ⟨j, v, hji, ?_⟩
      rw [← List.getElem?_take_of_lt hji]
      exact hj

/-- Witness for C5: the downstream `next` of `runA` is preceded by a
source `next`. -/
theorem sample_source_subscribed_first_witness :
    (Signal.next (some 3) ∈ outAt runA 3) ∧
    (∃ (j : Nat) (v : Nat), j < 3 ∧ runA[j]? = some (Event.sourceNext v)) :=
  ⟨by decide,
    (sample_source_subscribed_first (α := Nat) (β := Nat) (ε := Nat)).2.2.2
      runA 3 (some 3) (by decide)⟩

/-- Runs over event sequences that differ only in notifier payloads are
indistinguishable: same final state and same downstream signals. -/
theorem runFrom_notifier_agnostic {α β β' ε : Type}
    {evs : List (Event α β ε)} {evs' : List (Event α β' ε)}
    (h : NotifierAgnostic evs evs') :
    ∀ s : RunState α, runFrom s evs = runFrom s evs' := by
  induction h with
  | nil =>
    intro s
    rfl
  | sourceNext v h ih =>
    intro s
    simp only [runFrom]
    rw [ih]
    rfl
  | sourceError e h ih =>
    intro s
    simp only [runFrom]
    rw [ih]
    rfl
  | sourceComplete h ih =>
    intro s
    simp only [runFrom]
    rw [ih]
    rfl
  | notifierNext b b' h ih =>
    intro s
    simp only [runFrom]
    have hstep : step (ε := ε) s (Event.notifierNext b) =
        step (ε := ε) s (Event.notifierNext b') := rfl
    rw [hstep, ih]
  | notifierError e h ih =>
    intro s
    simp only [runFrom]
    rw [ih]
    rfl
  | notifierComplete h ih =>
    intro s
    simp only [runFrom]
    rw [ih]
    rfl

/-- C6: inside the emission routine the state update precedes the
forwarding: when `hasValue` is set, the atomic action sequence of
`emitValue` is exactly clear-the-flag followed by `destination.next`,
the intermediate state (after the clear, before the `next` call) has
`hasValue = false`, and a reentrant notifier tick delivered from inside
the downstream `next` callback (modelled by running `notifyNext` on the
intermediate state) emits nothing and cannot re-emit the value. -/
theorem sample_emit_clears_before_forward {α : Type} (st : SampleState α)
    (h : st.hasValue = true) :
    emitActions st = [EmitAction.setHasValue false, EmitAction.destNext st.value] ∧
    (applyEmitAction st (EmitAction.setHasValue false)).1.hasValue = false ∧
    SampleSubscriber.notifyNext (applyEmitAction st (EmitAction.setHasValue false)).1 =
      ((applyEmitAction st (EmitAction.setHasValue false)).1, []) := by
  refine ⟨?_, rfl, ?_⟩
  · simp [emitActions, h]
  · unfold SampleSubscriber.notifyNext
    rw [emitValue_eq]
    simp [applyEmitAction]

/-- Witness for C6 at a state holding a latched value. -/
theorem sample_emit_clears_before_forward_witness :
    ((⟨some 2, true⟩ : SampleState Nat).hasValue = true) ∧
    (emitActions (⟨some 2, true⟩ : SampleState Nat) =
      [EmitAction.setHasValue false, EmitAction.destNext (some 2)] ∧
    (applyEmitAction (⟨some 2, true⟩ : SampleState Nat)
      (EmitAction.setHasValue false)).1.hasValue = false ∧
    SampleSubscriber.notifyNext (applyEmitAction (⟨some 2, true⟩ : SampleState Nat)
        (EmitAction.setHasValue false)).1 =
      ((applyEmitAction (⟨some 2, true⟩ : SampleState Nat)
        (EmitAction.setHasValue false)).1, [])) :=
  ⟨rfl, sample_emit_clears_before_forward ⟨some 2, true⟩ rfl⟩

/-- C7: completion of the source producer does not trigger the emission
routine: a `sourceComplete` event leaves the `SampleSubscriber` fields
(latched value and `hasValue`) untouched and never produces a
downstream `next` signal — any flush of the latch is tied to notifier
events alone. -/
theorem sample_source_complete_no_flush {α β ε : Type} (s : RunState α) :
    (step (β := β) (ε := ε) s Event.sourceComplete).1.core = s.core ∧
    ∀ w : Option α,
      Signal.next w ∉ (step (β := β) (ε := ε) s Event.sourceComplete).2 := by
  rcases Bool.eq_false_or_eq_true s.terminated with ht | ht <;>
    exact ⟨by simp [step, ht], fun w => by simp [step, ht]⟩

/-- Witness for C7 at a state holding a latched value: the latch
survives source completion and no `next` is produced. -/
theorem sample_source_complete_no_flush_witness :
    ((step (⟨⟨some 3, true⟩, false, false⟩ : RunState Nat)
        (Event.sourceComplete : Event Nat Nat Nat)).1.core =
      (⟨some 3, true⟩ : SampleState Nat)) ∧
    (Signal.next (some 3) ∉
      (step (⟨⟨some 3, true⟩, false, false⟩ : RunState Nat)
        (Event.sourceComplete : Event Nat Nat Nat)).2) :=
  ⟨(sample_source_complete_no_flush ⟨⟨some 3, true⟩, false, false⟩).1,
    (sample_source_complete_no_flush ⟨⟨some 3, true⟩, false, false⟩).2 (some 3)⟩

/-- C8: the downstream output is independent of the values carried by
the notifier's `next` signals: two runs that differ only in notifier
payloads (same source signals, same occurrence pattern, payload types
may even differ) produce identical downstream signal sequences. -/
theorem sample_notifier_values_opaque {α β β' ε : Type}
    (evs : List (Event α β ε)) (evs' : List (Event α β' ε))
    (h : NotifierAgnostic evs evs') :
    outputOf evs = outputOf evs' := by
  unfold outputOf
  rw [runFrom_notifier_agnostic h]

/-- Witness for C8 on two concrete runs whose notifier payloads differ
even in type. -/
theorem sample_notifier_values_opaque_witness :
    NotifierAgnostic runN1 runN2 ∧ outputOf runN1 = outputOf runN2 := by
  have hagn : NotifierAgnostic runN1 runN2 :=
    NotifierAgnostic.sourceNext 1 (NotifierAgnostic.notifierNext 10 true
      (NotifierAgnostic.sourceNext 2
        (NotifierAgnostic.notifierComplete NotifierAgnostic.nil)))
  exact ⟨hagn, sample_notifier_values_opaque runN1 runN2 hagn⟩

theorem outputOf_append {α β ε : Type} (l₁ l₂ : List (Event α β ε)) :
    outputOf (l₁ ++ l₂) = outputOf l₁ ++ (runFrom (stateAt l₁) l₂).2 := by
  unfold outputOf stateAt
  rw [runFrom_append]

theorem outputOf_snoc {α β ε : Type} (evs : List (Event α β ε)) (e : Event α β ε) :
    outputOf (evs ++ [e]) = outputOf evs ++ (step (stateAt evs) e).2 := by
  rw [outputOf_append]
  simp [runFrom]

/-- A dispatched source error leaves the run terminated (it either
terminates it now or the run already was). -/
theorem terminated_after_sourceError {α β ε : Type} (evs : List (Event α β ε)) (e : ε) :
    (stateAt (evs ++ [Event.sourceError e])).terminated = true := by
  rw [stateAt_snoc]
  rcases Bool.eq_false_or_eq_true (stateAt evs).terminated with ht | ht
  · rw [step_of_terminated ht]
    exact ht
  · simp [step, ht]

/-- Every error signal observed downstream carries the payload of some
error event of one of the two producers: the operator fabricates no
error of its own. -/
theorem error_from_events {α β ε : Type} (evs : List (Event α β ε)) (e : ε)
    (h : Signal.error e ∈ outputOf evs) :
    Event.sourceError e ∈ evs ∨ Event.notifierError e ∈ evs := by
  induction evs using List.reverseRecOn with
  | nil => simp [outputOf, runFrom] at h
  | append_singleton evs ev ih =>
    rw [outputOf_snoc] at h
    rcases List.mem_append.mp h with hold | hnew
    · rcases ih hold with h1 | h1
      · exact Or.inl (List.mem_append_left _ h1)
      · exact Or.inr (List.mem_append_left _ h1)
    · cases ev with
      | sourceNext v =>
        rw [step_sourceNext_out] at hnew
        exact absurd hnew (List.not_mem_nil _)
      | sourceError err =>
        rcases Bool.eq_false_or_eq_true (stateAt evs).terminated with ht | ht
        · simp [step, ht] at hnew
        · simp [step, ht] at hnew
          subst hnew
          exact Or.inl (List.mem_append_right _ (List.mem_singleton_self _))
      | sourceComplete =>
        rcases Bool.eq_false_or_eq_true (stateAt evs).terminated with ht | ht <;>
          simp [step, ht] at hnew
      | notifierNext b =>
        rw [step_notifierNext_eq] at hnew
        rcases Bool.eq_false_or_eq_true
            ((stateAt evs).terminated || (stateAt evs).notifierStopped) with hg | hg
        · simp [hg] at hnew
        · rcases Bool.eq_false_or_eq_true (stateAt evs).core.hasValue with hv | hv <;>
            simp [hg, hv] at hnew
      | notifierError err =>
        rcases Bool.eq_false_or_eq_true
            ((stateAt evs).terminated || (stateAt evs).notifierStopped) with hg | hg
        · simp [step, hg] at hnew
        · simp [step, hg] at hnew
          subst hnew
          exact Or.inr (List.mem_append_right _ (List.mem_singleton_self _))
      | notifierComplete =>
        rw [step_notifierComplete_eq] at hnew
        rcases Bool.eq_false_or_eq_true
            ((stateAt evs).terminated || (stateAt evs).notifierStopped) with hg | hg
        · simp [hg] at hnew
        · rcases Bool.eq_false_or_eq_true (stateAt evs).core.hasValue with hv | hv <;>
            simp [hg, hv] at hnew

/-- C9: an error from either producer is forwarded verbatim and
immediately to the downstream consumer and terminates the combinator;
after a source error the downstream consumer observes no further
signal of any kind; and every downstream error payload originates in a
producer error event — the operator never fabricates one. -/
theorem sample_error_propagation {α β ε : Type} :
    (∀ (s : RunState α) (e : ε), s.terminated = false →
      step (β := β) s (Event.sourceError e) =
        ({ s with terminated := true }, [Signal.error e])) ∧
    (∀ (s : RunState α) (e : ε), s.terminated = false → s.notifierStopped = false →
      step (β := β) s (Event.notifierError e) =
        ({ s with terminated := true, notifierStopped := true }, [Signal.error e])) ∧
    (∀ (evs post : List (Event α β ε)) (e : ε),
      outputOf (evs ++ [Event.sourceError e] ++ post) =
        outputOf (evs ++ [Event.sourceError e])) ∧
    (∀ (evs : List (Event α β ε)) (e : ε), Signal.error e ∈ outputOf evs →
      Event.sourceError e ∈ evs ∨ Event.notifierError e ∈ evs) := by
  refine ⟨?_, ?_, ?_, fun evs e h => error_from_events evs e h⟩
  · intro s e ht
    simp [step, ht]
  · intro s e ht hn
    simp [step, ht, hn]
  · intro evs post e
    rw [outputOf_append (evs ++ [Event.sourceError e]) post,
      runFrom_of_terminated (terminated_after_sourceError evs e)]
    simp

/-- Witness for C9: a source error is delivered verbatim, silences the
rest of the run, and its payload stems from the source error event. -/
theorem sample_error_propagation_witness :
    ((RunState.init Nat).terminated = false) ∧
    (step (RunState.init Nat) (Event.sourceError 42 : Event Nat Nat Nat) =
      ({ RunState.init Nat with terminated := true }, [Signal.error 42])) ∧
    (outputOf (([Event.sourceNext 1] ++ [Event.sourceError 42] ++
        [Event.sourceNext 2, Event.notifierNext 0]) : List (Event Nat Nat Nat)) =
      outputOf (([Event.sourceNext 1] ++ [Event.sourceError 42]) :
        List (Event Nat Nat Nat))) ∧
    (Signal.error 42 ∈
      outputOf (([Event.sourceNext 1, Event.sourceError 42]) :
        List (Event Nat Nat Nat))) ∧
    (Event.sourceError 42 ∈
        ([Event.sourceNext 1, Event.sourceError 42] : List (Event Nat Nat Nat)) ∨
      Event.notifierError 42 ∈
        ([Event.sourceNext 1, Event.sourceError 42] : List (Event Nat Nat Nat))) :=
  ⟨rfl,
    sample_error_propagation.1 (RunState.init Nat) 42 rfl,
    sample_error_propagation.2.2.1 [Event.sourceNext 1]
      [Event.sourceNext 2, Event.notifierNext 0] 42,
    by decide,
    sample_error_propagation.2.2.2 [Event.sourceNext 1, Event.sourceError 42] 42
      (by decide)⟩

/-- One step preserves observational equivalence and produces identical
downstream signals from observationally equivalent states. -/
theorem step_obsEquiv {α β ε : Type} {s₁ s₂ : RunState α} (h : ObsEquiv s₁ s₂)
    (e : Event α β ε) :
    (step s₁ e).2 = (step s₂ e).2 ∧ ObsEquiv (step s₁ e).1 (step s₂ e).1 := by
  obtain ⟨ht, hn, hv, hval⟩ := h
  have h1' : s₂.terminated = s₁.terminated := ht.symm
  have h2' : s₂.notifierStopped = s₁.notifierStopped := hn.symm
  have h3' : s₂.core.hasValue = s₁.core.hasValue := hv.symm
  rcases Bool.eq_false_or_eq_true s₁.terminated with h1 | h1 <;>
    rcases Bool.eq_false_or_eq_true s₁.notifierStopped with h2 | h2 <;>
    rcases Bool.eq_false_or_eq_true s₁.core.hasValue with h3 | h3 <;>
    cases e <;>
    simp [step, ObsEquiv, SampleSubscriber._next, SampleSubscriber.notifyNext,
      SampleSubscriber.notifyComplete, emitValue_eq, h1', h2', h3',
      h1, h2, h3, hval]

/-- Observationally equivalent states produce identical downstream
signal sequences on every event list. -/
theorem runFrom_obsEquiv {α β ε : Type} (s₁ s₂ : RunState α)
    (evs : List (Event α β ε)) (h : ObsEquiv s₁ s₂) :
    (runFrom s₁ evs).2 = (runFrom s₂ evs).2 := by
  induction evs generalizing s₁ s₂ with
  | nil => rfl
  | cons e rest ih =>
    obtain ⟨hout, hobs⟩ := step_obsEquiv h e
    simp only [runFrom]
    rw [hout, ih _ _ hobs]

/-- C10: emission is gated solely by the `hasValue` flag, never by the
definedness of the stored value: any latched source value — for any
element type, including one whose values model `undefined`/`null` — is
forwarded at the following tick as a `next` carrying that same value;
on emission only the flag is cleared while the value slot is retained;
and the retained stale slot is unobservable downstream: two states
differing only in a stale slot produce identical signals on every
continuation. -/
theorem sample_gating_by_flag_only {α β ε : Type} :
    (∀ (s : RunState α) (v : α) (b : β), s.terminated = false →
      s.notifierStopped = false →
      (runFrom (ε := ε) s [Event.sourceNext v, Event.notifierNext b]).2 =
        [Signal.next (some v)]) ∧
    (∀ st : SampleState α, st.hasValue = true →
      SampleSubscriber.emitValue st = ({ st with hasValue := false }, [st.value])) ∧
    (∀ st : SampleState α, (SampleSubscriber.emitValue st).1.value = st.value) ∧
    (∀ (s₁ s₂ : RunState α) (evs : List (Event α β ε)), ObsEquiv s₁ s₂ →
      (runFrom s₁ evs).2 = (runFrom s₂ evs).2) := by
  refine ⟨?_, ?_, ?_, runFrom_obsEquiv⟩
  · intro s v b ht hn
    simp [runFrom, step, ht, hn, SampleSubscriber._next,
      SampleSubscriber.notifyNext, emitValue_eq]
  · intro st h
    rw [emitValue_eq, if_pos h]
  · intro st
    rw [emitValue_eq]
    rcases Bool.eq_false_or_eq_true st.hasValue with h | h <;> simp [h]

/-- Witness for C10: a source `next` carrying the `undefined`-like value
`none : Option Nat` is latched and forwarded at the next tick, and two
states differing only in a stale value slot are downstream
indistinguishable on a concrete continuation. -/
theorem sample_gating_by_flag_only_witness :
    ((RunState.init (Option Nat)).terminated = false) ∧
    ((RunState.init (Option Nat)).notifierStopped = false) ∧
    ((runFrom (RunState.init (Option Nat))
        ([Event.sourceNext none, Event.notifierNext 0] :
          List (Event (Option Nat) Nat Nat))).2 = [Signal.next (some none)]) ∧
    (ObsEquiv (⟨⟨some 1, false⟩, false, false⟩ : RunState Nat)
      ⟨⟨some 2, false⟩, false, false⟩) ∧
    ((runFrom (⟨⟨some 1, false⟩, false, false⟩ : RunState Nat)
        ([Event.notifierNext 0, Event.sourceNext 3, Event.notifierNext 1] :
          List (Event Nat Nat Nat))).2 =
      (runFrom (⟨⟨some 2, false⟩, false, false⟩ : RunState Nat)
        ([Event.notifierNext 0, Event.sourceNext 3, Event.notifierNext 1] :
          List (Event Nat Nat Nat))).2) := by
  have hobs : ObsEquiv (⟨⟨some 1, false⟩, false, false⟩ : RunState Nat)
      ⟨⟨some 2, false⟩, false, false⟩ :=
    ⟨rfl, rfl, rfl, fun hc => Bool.noConfusion hc⟩
  exact ⟨rfl, rfl,
    sample_gating_by_flag_only.1 (RunState.init (Option Nat)) none 0 rfl rfl,
    hobs,
    sample_gating_by_flag_only.2.2.2 _ _ _ hobs⟩

end RxSample
